import Mathlib

/-!
Verification of the web2md HTML-to-Markdown conversion engine.

Shallow embedding of `src/markdown-converter.js` (class `MarkdownConverter`)
and `src/unnamed/part_001` (class `TurndownService`, a simplified turndown).
Strings are modelled as Lean `String` (a wrapper around `List Char`), and the
JavaScript regex-based passes of `postProcess` are implemented as executable
character-list scanners that reproduce the semantics of the source regexes.
-/

/-! ## JavaScript string primitives -/

/-- Character class of JavaScript `\s` (also the set removed by
`String.prototype.trim`): tab, LF, VT, FF, CR, space, NBSP, Ogham space,
U+2000–U+200A, LS, PS, NNBSP, MMSP, ideographic space, BOM. -/
def jsIsSpace (c : Char) : Bool :=
  c.toNat == 0x9 || c.toNat == 0xA || c.toNat == 0xB || c.toNat == 0xC ||
  c.toNat == 0xD || c.toNat == 0x20 || c.toNat == 0xA0 || c.toNat == 0x1680 ||
  (0x2000 ≤ c.toNat && c.toNat ≤ 0x200A) ||
  c.toNat == 0x2028 || c.toNat == 0x2029 || c.toNat == 0x202F ||
  c.toNat == 0x205F || c.toNat == 0x3000 || c.toNat == 0xFEFF

/-- Drop the trailing characters satisfying `p` (helper for trimming). -/
def dropTrailing (p : Char → Bool) (l : List Char) : List Char :=
  (l.reverse.dropWhile p).reverse

/-- JavaScript `String.prototype.trim` on a character list. -/
def trimL (l : List Char) : List Char :=
  dropTrailing jsIsSpace (l.dropWhile jsIsSpace)

/-- JavaScript `String.prototype.trim`. -/
def jsTrim (s : String) : String := ⟨trimL s.data⟩

/-- JavaScript `String.prototype.toLowerCase` (ASCII fragment, which is all
the source applies it to: HTML tag names). -/
def jsToLower (s : String) : String := ⟨s.data.map Char.toLower⟩

/-- Split a character list at `'\n'` separators, as JavaScript
`split('\n')` does (an accumulator holds the current line, reversed). -/
def splitNlGo (acc : List Char) : List Char → List (List Char)
  | [] => [acc.reverse]
  | c :: cs => if c == '\n' then acc.reverse :: splitNlGo [] cs else splitNlGo (c :: acc) cs

/-- JavaScript `split('\n')` on a character list. -/
def splitNl (l : List Char) : List (List Char) := splitNlGo [] l

/-- Join lines with `'\n'`, as JavaScript `Array.prototype.join('\n')`. -/
def joinNl (ls : List (List Char)) : List Char := List.intercalate ['\n'] ls

/-- String-level `split('\n')`. -/
def splitNlStr (s : String) : List String := (splitNl s.data).map String.mk

/-- String-level `join('\n')`. -/
def joinNlStr (ls : List String) : String := ⟨joinNl (ls.map String.data)⟩

/-- Count the leading occurrences of character `ch`. -/
def countLeading (ch : Char) : List Char → Nat
  | [] => 0
  | c :: cs => if c == ch then countLeading ch cs + 1 else 0

/-- Test whether `p` is a literal leading pattern of `l`. -/
def startsWithL : List Char → List Char → Bool
  | [], _ => true
  | _ :: _, [] => false
  | p :: ps, c :: cs => p == c && startsWithL ps cs

/-- The backtick character (U+0060). -/
def tickChar : Char := Char.ofNat 96

/-- Test for a leading triple-backtick fence. -/
def startsTicks : List Char → Bool
  | a :: b :: c :: _ => a == tickChar && b == tickChar && c == tickChar
  | _ => false

/-- Locate the first triple-backtick in `l`: returns the part before it and
the part after it (the fence itself removed). -/
def splitTicks : List Char → Option (List Char × List Char)
  | [] => none
  | c :: cs =>
    if startsTicks (c :: cs) then some ([], (c :: cs).drop 3)
    else (splitTicks cs).map (fun pr => (c :: pr.1, pr.2))

/-! ## The post-processing normalizer (`MarkdownConverter.postProcess`)

The source applies seven `String.replace` passes in order; each is embedded
as a character-list pass below. -/

/-- Emit a run of `n` newlines, collapsed to two when `n ≥ 3`: the action of
`replace(/\n{3,}/g, '\n\n')` on one maximal newline run. -/
def emitNlRun (n : Nat) : List Char :=
  if n ≥ 3 then ['\n', '\n'] else List.replicate n '\n'

/-- Scanner for pass 1, `replace(/\n{3,}/g, '\n\n')`: `pending` counts the
newline run currently being read. -/
def ppCollapseGo (pending : Nat) : List Char → List Char
  | [] => emitNlRun pending
  | c :: cs =>
    if c == '\n' then ppCollapseGo (pending + 1) cs
    else emitNlRun pending ++ c :: ppCollapseGo 0 cs

/-- Pass 1: collapse runs of three or more newlines to exactly two. -/
def ppCollapse (l : List Char) : List Char := ppCollapseGo 0 l

/-- Space or tab, the class `[ \t]` of pass 2. -/
def isSpaceTab (c : Char) : Bool := c == ' ' || c == '\t'

/-- Pass 2, `replace(/^[ \t]+|[ \t]+$/gm, '')`: strip leading and trailing
spaces/tabs on every line. -/
def ppStrip (l : List Char) : List Char :=
  joinNl ((splitNl l).map (fun ln => dropTrailing isSpaceTab (ln.dropWhile isSpaceTab)))

/-- Pass 3, `replace(/^([-*+]|\d+\.)\s/gm, (match) => match)`: the callback
returns the match unchanged, so this pass is the identity. -/
def ppListSpacing (l : List Char) : List Char := l

/-- Word character, the class `\w` (letters, digits, underscore). -/
def isWordChar (c : Char) : Bool :=
  ('a' ≤ c && c ≤ 'z') || ('A' ≤ c && c ≤ 'Z') || ('0' ≤ c && c ≤ '9') || c == '_'

/-- Scanner for pass 4, `replace(/^(#{1,6})\s(.+)$/gm, (m, hashes, title) =>
hashes + ' ' + title.trim())`. A match needs a line-start position (`atLS`),
a run of one to six `#`, one `\s` character (which, matching JavaScript,
may itself be a newline), and a non-empty remainder of the line (`.+`); the
`$` anchor is zero-width, so the closing newline is not consumed. `fuel`
bounds the scan by the input length (each step consumes at least one
character). -/
def ppHeadGo : Nat → Bool → List Char → List Char
  | 0, _, l => l
  | _ + 1, _, [] => []
  | fuel + 1, atLS, c :: cs =>
    let noMatch := c :: ppHeadGo fuel (c == '\n') cs
    if atLS && c == '#' then
      let m := countLeading '#' (c :: cs)
      if m ≤ 6 then
        match (c :: cs).drop m with
        | w :: rest =>
          if jsIsSpace w then
            let title := rest.takeWhile (· != '\n')
            if title.isEmpty then noMatch
            else
              List.replicate m '#' ++ ' ' :: trimL title ++
                ppHeadGo fuel false (rest.drop title.length)
          else noMatch
        | [] => noMatch
      else noMatch
    else noMatch

/-- Pass 4: normalize heading lines, trimming the title text. -/
def ppHead (l : List Char) : List Char := ppHeadGo (l.length + 1) true l

/-- Index of the last `'\n'` in a list, if any. -/
def idxOfLastNl (l : List Char) : Option Nat :=
  (l.reverse.findIdx? (· == '\n')).map (fun i => l.length - 1 - i)

/-- Scanner for pass 5, `replace(/^>\s*$/gm, '>')`. At a line start `>` is
matched, then `\s*` extends greedily (across newlines, as in JavaScript) and
backtracks until the zero-width `$` holds, i.e. until the next character is
`'\n'` or the input ends; the matched region is replaced by a single `>`. -/
def ppQuoteGo : Nat → Bool → List Char → List Char
  | 0, _, l => l
  | _ + 1, _, [] => []
  | fuel + 1, atLS, c :: cs =>
    if atLS && c == '>' then
      let run := cs.takeWhile jsIsSpace
      if cs.drop run.length |>.isEmpty then ['>']
      else
        match idxOfLastNl run with
        | some p => '>' :: ppQuoteGo fuel false (cs.drop p)
        | none => '>' :: ppQuoteGo fuel false cs
    else c :: ppQuoteGo fuel (c == '\n') cs

/-- Pass 5: replace whitespace-only blockquote marker lines by a bare `>`. -/
def ppQuote (l : List Char) : List Char := ppQuoteGo (l.length + 1) true l

/-- Extract a fenced block starting at `l` (which must start with a fence):
returns the full block including both fences, and the remainder. -/
def fenceBlock (l : List Char) : Option (List Char × List Char) :=
  (splitTicks (l.drop 3)).map (fun pr =>
    ([tickChar, tickChar, tickChar] ++ pr.1 ++ [tickChar, tickChar, tickChar], pr.2))

/-- Scanner for pass 6, `replace(/(^|\n)(```[\s\S]*?```)/g, '\n\n$2\n\n')`,
for positions after the start of the string: a match consumes a newline plus
a lazily-closed fenced block and emits the block framed by blank lines. -/
def ppFenceGo : Nat → List Char → List Char
  | 0, l => l
  | _ + 1, [] => []
  | fuel + 1, c :: cs =>
    if c == '\n' && startsTicks cs then
      match fenceBlock cs with
      | some (block, rest) => '\n' :: '\n' :: block ++ '\n' :: '\n' :: ppFenceGo fuel rest
      | none => c :: ppFenceGo fuel cs
    else c :: ppFenceGo fuel cs

/-- Pass 6: frame every fenced code block with blank lines (the `^`
alternative of the group applies only at the very start, since the regex has
no `m` flag). -/
def ppFence (l : List Char) : List Char :=
  if startsTicks l then
    match fenceBlock l with
    | some (block, rest) => '\n' :: '\n' :: block ++ '\n' :: '\n' :: ppFenceGo (rest.length + 1) rest
    | none => ppFenceGo (l.length + 1) l
  else ppFenceGo (l.length + 1) l

/-- The post-processing normalizer `MarkdownConverter.postProcess`: the
seven passes of the source in order, ending with `trim()`. -/
def postProcess (markdown : String) : String :=
  ⟨trimL (ppFence (ppQuote (ppHead (ppListSpacing (ppStrip (ppCollapse markdown.data))))))⟩

example : postProcess "a\n\n\n\nb" = "a\n\nb" := by decide
example : postProcess "  x  \n\ty" = "x\ny" := by decide
example : postProcess "```a```\nb" = "```a```\n\n\nb" := by decide
example : postProcess (postProcess "```a```\nb") = "```a```\n\n\n\nb" := by decide

/-! ## The DOM data model

Nodes are modelled as a mutual inductive (element / text / comment), with
the child list as a companion inductive so that all traversals are
structural (hence kernel-computable). The DOM `parentNode` link, which the
source reads only through `parentNode.nodeName`, is modelled as the parent's
node name recorded in each element (`parentTag`); the builder `el` keeps it
consistent. Element tag names are stored in the uppercase form that the DOM
reports via `nodeName` for HTML elements. -/

mutual
inductive Node where
  | element (tag : String) (parentTag : Option String)
      (attrs : List (String × String)) (children : NodeList)
  | text (s : String)
  | comment (s : String)
deriving DecidableEq
inductive NodeList where
  | nil
  | cons (hd : Node) (tl : NodeList)
deriving DecidableEq
end

/-- Convert a plain list of nodes into a child list. -/
def NodeList.ofList : List Node → NodeList
  | [] => .nil
  | n :: ns => .cons n (NodeList.ofList ns)

/-- Convert a child list back into a plain list. -/
def NodeList.toList : NodeList → List Node
  | .nil => []
  | .cons n ns => n :: NodeList.toList ns

/-- DOM `nodeName`: the (uppercase) tag for elements, `#text` / `#comment`
for the other node kinds. -/
def Node.nodeName : Node → String
  | .element t _ _ _ => t
  | .text _ => "#text"
  | .comment _ => "#comment"

/-- DOM `childNodes`, as a plain list. -/
def Node.childNodes : Node → List Node
  | .element _ _ _ cs => cs.toList
  | _ => []

/-- DOM `parentNode.nodeName`, when a parent exists. -/
def Node.parentName : Node → Option String
  | .element _ p _ _ => p
  | _ => none

/-- DOM `getAttribute`: the attribute's value, or `none` (JavaScript
`null`) when the attribute is absent. -/
def Node.getAttribute (n : Node) (name : String) : Option String :=
  match n with
  | .element _ _ a _ => (a.find? (fun p => p.1 == name)).map (fun p => p.2)
  | _ => none

/-- Record `p` as the parent tag of a node (used by the `el` builder). -/
def setParentTag (p : String) : Node → Node
  | .element t _ a cs => .element t (some p) a cs
  | n => n

/-- Build an element node; children receive this element's tag as their
recorded parent, keeping the `parentTag` model consistent. -/
def el (tag : String) (attrs : List (String × String)) (children : List Node) : Node :=
  .element tag none attrs (NodeList.ofList (children.map (setParentTag tag)))

/-- Build a text node. -/
def txt (s : String) : Node := .text s

mutual
/-- All strict descendants of a node, in document (pre-)order. -/
def descendants : Node → List Node
  | .element _ _ _ cs => descendantsL cs
  | _ => []
/-- Descendant enumeration over a child list. -/
def descendantsL : NodeList → List Node
  | .nil => []
  | .cons c cs => c :: descendants c ++ descendantsL cs
end

/-- Tag-name matching of a CSS tag selector list (case-insensitive, as in
HTML documents); only element nodes can match. -/
def matchesTagSel (tags : List String) (n : Node) : Bool :=
  match n with
  | .element t _ _ _ => tags.any (fun s => jsToLower t == jsToLower s)
  | _ => false

/-- DOM `querySelectorAll` for the selectors the source uses (comma lists
of tag names, e.g. `'td, th'` becomes `["td","th"]`): all matching strict
descendants in document order. -/
def querySelectorAll (tags : List String) (n : Node) : List Node :=
  (descendants n).filter (matchesTagSel tags)

/-- DOM `querySelector`: the first matching strict descendant, if any. -/
def querySelector (tags : List String) (n : Node) : Option Node :=
  (querySelectorAll tags n).head?

mutual
/-- DOM `textContent` of an element: the concatenated data of all
descendant text nodes in document order (comments contribute nothing). -/
def textContentL : Node → List Char
  | .element _ _ _ cs => textContentAll cs
  | .text s => s.data
  | .comment _ => []
/-- Text content accumulated over a child list. -/
def textContentAll : NodeList → List Char
  | .nil => []
  | .cons c cs => textContentL c ++ textContentAll cs
end

/-- DOM `textContent` as a string. -/
def textContent (n : Node) : String := ⟨textContentL n⟩

/-- Test whether a node is a `ul` or `ol` element (case-insensitive, as the
CSS selector `'ul, ol'` matches). -/
def isListTag (n : Node) : Bool :=
  jsToLower n.nodeName == "ul" || jsToLower n.nodeName == "ol"

mutual
/-- Removal of every nested list, as `getTextContent` does on its private
clone via `querySelectorAll('ul, ol').forEach(list => list.remove())`:
every `ul`/`ol` descendant subtree is dropped. -/
def removeLists : Node → Node
  | .element t p a cs => .element t p a (removeListsL cs)
  | n => n
/-- List-removal over a child list. -/
def removeListsL : NodeList → NodeList
  | .nil => .nil
  | .cons c cs =>
    if isListTag c then removeListsL cs
    else .cons (removeLists c) (removeListsL cs)
end

/-! ## The rule registry (`TurndownService` rules) -/

/-- Rule filters: a tag-name string, an array of tag-name strings, or a
predicate over nodes. The source's `matchesFilter` recurses over array
members; every array the program builds contains strings only, so the array
case is specialized to string members here. -/
inductive TdFilter where
  | tag (s : String)
  | tags (l : List String)
  | pred (f : Node → Bool)

/-- A conversion rule `{ name, filter, replacement }`. In the source the
replacement closures capture the service (`this`) and may call back into
`this.processNode` / the converter's helpers; that recursion is made
explicit here by handing every replacement the node processor as its first
argument. -/
structure Rule where
  name : String
  filter : TdFilter
  replacement : (Node → String) → String → Node → String

/-- Filter matching (`TurndownService.matchesFilter`): strings compare
case-insensitively against the node name, arrays match if any member does,
predicates are applied to the node. -/
def matchesFilter (node : Node) : TdFilter → Bool
  | .tag s => jsToLower node.nodeName == jsToLower s
  | .tags l => l.any (fun s => jsToLower node.nodeName == jsToLower s)
  | .pred f => f node

/-- Rule registration (`TurndownService.addRule`): `unshift`, i.e. the new
rule is prepended and gets the highest priority. -/
def addRule (r : Rule) (rules : List Rule) : List Rule := r :: rules

/-- Rule lookup (`TurndownService.findMatchingRule`): the first rule in the
list whose filter matches the node, or none. -/
def findMatchingRule (rules : List Rule) (node : Node) : Option Rule :=
  match rules with
  | [] => none
  | r :: rs => if matchesFilter node r.filter then some r else findMatchingRule rs node

/-! ## Service options (`TurndownService` constructor) -/

/-- Options record passed by a caller of `new TurndownService(options)`;
`none` models an absent (`undefined`) field. -/
structure TurndownOptionsIn where
  headingStyle : Option String
  codeBlockStyle : Option String
  emDelimiter : Option String
  strongDelimiter : Option String
  linkStyle : Option String
  br : Option String
  hr : Option String
deriving DecidableEq

/-- Resolved options held by the service. -/
structure TurndownOptions where
  headingStyle : String
  codeBlockStyle : String
  emDelimiter : String
  strongDelimiter : String
  linkStyle : String
  br : String
  hr : String
deriving DecidableEq

/-- JavaScript `value || default`: the default replaces a missing
(`undefined`/`null`) or empty-string (falsy) value; any other value is kept
verbatim. -/
def jsOrDefault (v : Option String) (d : String) : String :=
  match v with
  | none => d
  | some s => if s == "" then d else s

/-- The `TurndownService` constructor's option resolution. The constructor
contains no validation and no throw path: construction always succeeds, and
an unsupported truthy value is stored verbatim rather than rejected. -/
def mkOptions (o : TurndownOptionsIn) : TurndownOptions :=
  ⟨jsOrDefault o.headingStyle "atx", jsOrDefault o.codeBlockStyle "fenced",
   jsOrDefault o.emDelimiter "_", jsOrDefault o.strongDelimiter "**",
   jsOrDefault o.linkStyle "inlineLink", jsOrDefault o.br "\n",
   jsOrDefault o.hr "---"⟩

/-- JavaScript truthiness of a `getAttribute` result: `null` and `''` are
falsy. -/
def attrTruthy : Option String → Option String
  | none => none
  | some s => if s == "" then none else some s

/-! ## The tree walker (`TurndownService.processNode`)

The source recursion is unbounded (host call stack); here a fuel parameter
bounds the depth, decreasing by one per recursion level. Every theorem and
evaluation below supplies fuel at least the height of the tree involved, so
the fuel-exhausted branch is never taken. -/

/-- Node processing (`TurndownService.processNode`): text nodes yield their
raw text, other non-element nodes yield the empty string, and elements
concatenate their children's output in document order and hand it to the
matching rule's replacement — or return it unchanged when no rule
matches. -/
def processNode (rules : List Rule) : Nat → Node → String
  | 0, _ => ""
  | _ + 1, .text s => s
  | _ + 1, .comment _ => ""
  | fuel + 1, .element t p a cs =>
    let self := Node.element t p a cs
    let content := String.join (cs.toList.map (processNode rules fuel))
    match findMatchingRule rules self with
    | some r => r.replacement (processNode rules fuel) content self
    | none => content

/-- Child processing (`TurndownService.processChildren`): concatenation of
the children's outputs in document order. -/
def processChildren (rules : List Rule) (fuel : Nat) (n : Node) : String :=
  String.join (n.childNodes.map (processNode rules fuel))

/-- Element-input path of `TurndownService.turndown`: process the root and
trim the result. -/
def turndown (rules : List Rule) (fuel : Nat) (input : Node) : String :=
  jsTrim (processNode rules fuel input)

/-! ## Element-specific transforms (`MarkdownConverter`) -/

/-- Pipe escaping of a table cell, `replace(/\|/g, '\\|')`. -/
def escPipesL : List Char → List Char
  | [] => []
  | c :: cs => if c == '|' then '\\' :: '|' :: escPipesL cs else c :: escPipesL cs

/-- String-level pipe escaping. -/
def escapePipes (s : String) : String := ⟨escPipesL s.data⟩

/-- Table conversion (`MarkdownConverter.convertTable`): all `tr`
descendants are the rows; a header is detected from a `thead` section or a
`th` in the first row; each cell's text content is trimmed and
pipe-escaped; a `---` separator line follows the first row when a header
was detected. -/
def convertTable (tableNode : Node) : String :=
  let rows := querySelectorAll ["tr"] tableNode
  if rows.isEmpty then ""
  else
    let hasHeader := (querySelector ["thead"] tableNode).isSome ||
      (match rows.head? with
       | some firstRow => (querySelector ["th"] firstRow).isSome
       | none => false)
    let body := rows.enum.foldl (fun md pr =>
      let cells := querySelectorAll ["td", "th"] pr.2
      let cellContents := cells.map (fun cell => escapePipes (jsTrim (textContent cell)))
      let md := md ++ "| " ++ String.intercalate " | " cellContents ++ " |\n"
      if pr.1 == 0 && hasHeader then
        md ++ "| " ++ String.intercalate " | " (cellContents.map (fun _ => "---")) ++ " |\n"
      else md) ""
    "\n\n" ++ body ++ "\n"

/-- Nested-content extraction (`MarkdownConverter.getTextContent`). The
source clones the element into a temporary `div`, removes every nested
`ul`/`ol` from the clone, and runs `converter.turndown` on the serialized
HTML. Reparsing the serialization reproduces the cleaned tree, and the
`body` wrapper produced by the parser matches no rule (transparent
pass-through), so this equals processing the cleaned clone and trimming
(`turndown` ends with `trim()`); `proc` is the converter's node
processor. -/
def getTextContent (proc : Node → String) (element : Node) : String :=
  jsTrim (proc (removeLists element))

/-- List conversion (`MarkdownConverter.convertList`): collects all `li`
descendants via `querySelectorAll('li')`, extracts each item's text with
nested lists removed, skips items whose extracted text trims to nothing,
numbers ordered items by their position in the collected array plus one,
and indents continuation lines (3 spaces ordered, 2 unordered). -/
def convertList (proc : Node → String) (listNode : Node) : String :=
  let isOrdered := jsToLower listNode.nodeName == "ol"
  let items := querySelectorAll ["li"] listNode
  if items.isEmpty then ""
  else
    let body := items.enum.foldl (fun md pr =>
      let content := jsTrim (getTextContent proc pr.2)
      if content == "" then md
      else
        let marker := if isOrdered then toString (pr.1 + 1) ++ ". " else "- "
        let indent := if isOrdered then "   " else "  "
        let formatted := (splitNlStr content).enum.map (fun lp =>
          if lp.1 == 0 then marker ++ lp.2 else indent ++ lp.2)
        md ++ joinNlStr formatted ++ "\n") ""
    "\n\n" ++ body ++ "\n"

/-- Language-tag extraction, the regex `/language-(\w+)/` applied to a
class string: at the leftmost position where `language-` is followed by at
least one word character, capture the maximal word-character run. -/
def langTokenL : List Char → List Char
  | [] => []
  | c :: cs =>
    if startsWithL "language-".data (c :: cs) && isWordChar (((c :: cs).drop 9).headD ' ') then
      ((c :: cs).drop 9).takeWhile isWordChar
    else langTokenL cs

/-- String-level language-tag extraction (empty when the regex does not
match). -/
def extractLanguage (className : String) : String := ⟨langTokenL className.data⟩

/-- Code-block conversion (`MarkdownConverter.convertCodeBlock`): locate
the nested `code` element (empty result if none), take its raw text
content, extract the language from its `class` attribute, and emit a
fenced block framed by blank lines. -/
def convertCodeBlock (preNode : Node) : String :=
  match querySelector ["code"] preNode with
  | none => ""
  | some codeNode =>
    let content := textContent codeNode
    let className := jsOrDefault (codeNode.getAttribute "class") ""
    let language := extractLanguage className
    "\n\n```" ++ language ++ "\n" ++ content ++ "\n```\n\n"

/-! ## The default rules (`TurndownService.initDefaultRules`) -/

/-- Default paragraph rule: child output framed by blank lines. -/
def paragraphRule : Rule :=
  ⟨"paragraph", .tag "p", fun _ content _ => "\n\n" ++ content ++ "\n\n"⟩

/-- Heading level, `parseInt(node.nodeName.charAt(1))`; only reached for
`H1`–`H6` node names. -/
def headingLevel (t : String) : Nat :=
  match t.data with
  | _ :: c :: _ => c.toNat - '0'.toNat
  | _ => 0

/-- Default heading rule: `#` repeated to the level, framed by blank
lines. -/
def headingRule : Rule :=
  ⟨"heading", .tags ["h1", "h2", "h3", "h4", "h5", "h6"], fun _ content node =>
    "\n\n" ++ String.mk (List.replicate (headingLevel node.nodeName) '#') ++ " " ++
      content ++ "\n\n"⟩

/-- Default strong rule: the configured delimiter around non-blank
content. -/
def strongRule (opts : TurndownOptions) : Rule :=
  ⟨"strong", .tags ["strong", "b"], fun _ content _ =>
    if jsTrim content != "" then opts.strongDelimiter ++ content ++ opts.strongDelimiter
    else ""⟩

/-- Default emphasis rule: the configured delimiter around non-blank
content. -/
def emphasisRule (opts : TurndownOptions) : Rule :=
  ⟨"emphasis", .tags ["em", "i"], fun _ content _ =>
    if jsTrim content != "" then opts.emDelimiter ++ content ++ opts.emDelimiter
    else ""⟩

/-- Default link rule: `[content](href "title")`; a missing or empty
`href` degrades to the plain content. -/
def linkRule : Rule :=
  ⟨"link", .tag "a", fun _ content node =>
    match attrTruthy (node.getAttribute "href") with
    | none => content
    | some href =>
      let titlePart := match attrTruthy (node.getAttribute "title") with
        | some t => " \"" ++ t ++ "\""
        | none => ""
      "[" ++ content ++ "](" ++ href ++ titlePart ++ ")"⟩

/-- Default image rule: `![alt](src "title")`; a missing `src` degrades to
`[alt]`. -/
def imageRule : Rule :=
  ⟨"image", .tag "img", fun _ _ node =>
    let alt := jsOrDefault (node.getAttribute "alt") ""
    match attrTruthy (node.getAttribute "src") with
    | none => "[" ++ alt ++ "]"
    | some src =>
      let titlePart := match attrTruthy (node.getAttribute "title") with
        | some t => " \"" ++ t ++ "\""
        | none => ""
      "![" ++ alt ++ "](" ++ src ++ titlePart ++ ")"⟩

/-- Default inline-code rule: content passes through unchanged inside a
`pre` parent; otherwise non-blank content is wrapped in backticks. -/
def codeRule : Rule :=
  ⟨"code", .tag "code", fun _ content node =>
    if node.parentName == some "PRE" then content
    else if jsTrim content != "" then "`" ++ content ++ "`"
    else ""⟩

/-- Default code-block rule: raw text of the nested `code` element (or of
the `pre` itself) in an untagged fence. -/
def codeBlockRule : Rule :=
  ⟨"codeBlock", .tag "pre", fun _ _ node =>
    let text := match querySelector ["code"] node with
      | some codeNode => textContent codeNode
      | none => textContent node
    "\n\n```\n" ++ text ++ "\n```\n\n"⟩

/-- Default line-break rule: the configured break token. -/
def lineBreakRule (opts : TurndownOptions) : Rule :=
  ⟨"lineBreak", .tag "br", fun _ _ _ => opts.br⟩

/-- Default horizontal-rule rule: the configured rule token framed by blank
lines. -/
def horizontalRuleRule (opts : TurndownOptions) : Rule :=
  ⟨"horizontalRule", .tag "hr", fun _ _ _ => "\n\n" ++ opts.hr ++ "\n\n"⟩

/-- Default blockquote rule: every line of the trimmed content prefixed
with `> `. -/
def blockquoteRule : Rule :=
  ⟨"blockquote", .tag "blockquote", fun _ content _ =>
    let quoted := (splitNlStr (jsTrim content)).map (fun line => "> " ++ jsTrim line)
    "\n\n" ++ joinNlStr quoted ++ "\n\n"⟩

/-- Default list rule: direct `LI` children only, each reprocessed via
`this.processNode`, blank items skipped, ordered markers numbered by array
position plus one. -/
def listRule : Rule :=
  ⟨"list", .tags ["ul", "ol"], fun proc _ node =>
    let isOrdered := node.nodeName == "OL"
    let items := node.childNodes.filter (fun c => c.nodeName == "LI")
    let body := items.enum.foldl (fun res pr =>
      let text := jsTrim (proc pr.2)
      if text == "" then res
      else
        let marker := if isOrdered then toString (pr.1 + 1) ++ ". " else "- "
        res ++ marker ++ text ++ "\n") ""
    "\n\n" ++ body ++ "\n"⟩

/-- Default list-item rule: trimmed child output. -/
def listItemRule : Rule :=
  ⟨"listItem", .tag "li", fun _ content _ => jsTrim content⟩

/-- The default rule list, built by thirteen `addRule` calls in source
registration order (paragraph first), so the most recently registered rule
is first. -/
def defaultRules (opts : TurndownOptions) : List Rule :=
  addRule listItemRule (addRule listRule (addRule blockquoteRule
    (addRule (horizontalRuleRule opts) (addRule (lineBreakRule opts)
      (addRule codeBlockRule (addRule codeRule (addRule imageRule
        (addRule linkRule (addRule (emphasisRule opts) (addRule (strongRule opts)
          (addRule headingRule (addRule paragraphRule []))))))))))))

/-! ## The custom rules (`MarkdownConverter.initCustomRules`) -/

/-- Custom table rule: delegates to `convertTable`, discarding the child
output. -/
def tablesRule : Rule :=
  ⟨"tables", .tag "table", fun _ _ node => convertTable node⟩

/-- Custom list rule: delegates to `convertList`, discarding the child
output. -/
def improvedListsRule : Rule :=
  ⟨"improvedLists", .tags ["ul", "ol"], fun proc _ node => convertList proc node⟩

/-- Custom code-block rule: a predicate filter for `pre` elements holding a
`code` element; delegates to `convertCodeBlock`. -/
def codeBlocksRule : Rule :=
  ⟨"codeBlocks",
   .pred (fun node => node.nodeName == "PRE" && (querySelector ["code"] node).isSome),
   fun _ _ node => convertCodeBlock node⟩

/-- Custom image rule: like the default, with a placeholder alt text. -/
def imagesRule : Rule :=
  ⟨"images", .tag "img", fun _ _ node =>
    let alt := jsOrDefault (node.getAttribute "alt") "图片"
    let src := jsOrDefault (node.getAttribute "src") ""
    let title := jsOrDefault (node.getAttribute "title") ""
    if src == "" then "[" ++ alt ++ "]"
    else
      let titlePart := if title != "" then " \"" ++ title ++ "\"" else ""
      "![" ++ alt ++ "](" ++ src ++ titlePart ++ ")"⟩

/-- Custom strikethrough rule: `~~...~~` around non-blank content. -/
def strikethroughRule : Rule :=
  ⟨"strikethrough", .tags ["del", "s", "strike"], fun _ content _ =>
    if jsTrim content != "" then "~~" ++ content ++ "~~" else ""⟩

/-- Custom underline rule: a literal `<u>` wrapper around non-blank
content. -/
def underlineRule : Rule :=
  ⟨"underline", .tag "u", fun _ content _ =>
    if jsTrim content != "" then "<u>" ++ content ++ "</u>" else ""⟩

/-- Custom blockquote rule: non-blank lines prefixed `> `, blank lines a
bare `>`. -/
def blockquotesRule : Rule :=
  ⟨"blockquotes", .tag "blockquote", fun _ content _ =>
    let quoted := (splitNlStr (jsTrim content)).map (fun line =>
      let trimmed := jsTrim line
      if trimmed != "" then "> " ++ trimmed else ">")
    "\n\n" ++ joinNlStr quoted ++ "\n\n"⟩

/-- The options `MarkdownConverter.init` passes to `new TurndownService`. -/
def converterOptions : TurndownOptions :=
  mkOptions ⟨some "atx", some "fenced", some "_", some "**",
             some "inlineLink", some "\n", some "---"⟩

/-- The converter's full rule list: the seven custom rules registered (in
source order, tables first) on top of the defaults, each prepended by
`addRule`, so the last-registered custom rule is first. -/
def converterRules : List Rule :=
  addRule blockquotesRule (addRule underlineRule (addRule strikethroughRule
    (addRule imagesRule (addRule codeBlocksRule (addRule improvedListsRule
      (addRule tablesRule (defaultRules converterOptions)))))))

/-! ## The top-level conversion (`MarkdownConverter.convert`) -/

/-- Conversion input: a string, or a non-string value (anything for which
`typeof html !== 'string'`). -/
inductive HtmlInput where
  | nonString
  | str (s : String)
deriving DecidableEq

/-- Metadata attached to a conversion result. The source also records a
wall-clock `convertedAt` timestamp and a float-formatted
`compressionRatio`; both are derived presentation fields outside the
model (real time / floating-point formatting). -/
structure ConvMetadata where
  originalLength : Nat
  markdownLength : Nat
deriving DecidableEq

/-- An immutable conversion result. -/
structure ConversionResult where
  markdown : String
  metadata : ConvMetadata
deriving DecidableEq

/-- Top-level conversion (`MarkdownConverter.convert`). The input check
runs before anything else; `pipeline` abstracts the DOM work between the
check and post-processing (`preProcessHtml` plus `turndown`, which parse
HTML strings via the hosting DOM). A thrown error is the `.error` case,
with the message wrapped by the catch block's `转换失败: ` prefix. -/
def convert (pipeline : String → String) : HtmlInput → Except String ConversionResult
  | .nonString => .error "转换失败: Invalid HTML input"
  | .str html =>
    if html == "" then .error "转换失败: Invalid HTML input"
    else
      let markdown := postProcess (pipeline html)
      .ok ⟨markdown, ⟨html.length, markdown.length⟩⟩

example :
    convertList (processNode converterRules 10)
      (el "OL" [("start", "5")] [el "LI" [] [txt "x"], el "LI" [] [txt "y"]]) =
    "\n\n1. x\n2. y\n\n" := by decide

example :
    processNode converterRules 10
      (el "UL" [] [el "LI" [] [txt "a", el "UL" [] [el "LI" [] [txt "b"]]]]) =
    "\n\n- a\n- b\n\n" := by decide

example :
    convertTable (el "TABLE" [] [el "TR" [] [el "TD" [] [txt " a|b "]]]) =
    "\n\n| a\\|b |\n\n" := by decide

example :
    convertCodeBlock
      (el "PRE" [] [el "CODE" [("class", "language-js")] [txt "1 < 2"]]) =
    "\n\n```js\n1 < 2\n```\n\n" := by decide

/-! ## Helper lemmas -/

/-- Appending strings appends their character data. -/
theorem strData (a b : String) : (a ++ b).data = a.data ++ b.data := rfl

/-- Strings with equal character data are equal. -/
theorem strExt {a b : String} (h : a.data = b.data) : a = b := by
  cases a; cases b; exact congrArg String.mk h

/-- Text content of an element holding a single text node. -/
theorem textContent_single (tag : String) (par : Option String)
    (attrs : List (String × String)) (s : String) :
    textContent (.element tag par attrs (.cons (.text s) .nil)) = s := by
  apply strExt
  simp [textContent, textContentL, textContentAll]

/-- Intercalation of a one-element list is that element. -/
theorem intercalate_single (sep s : String) : String.intercalate sep [s] = s := by
  apply strExt
  simp [String.intercalate, String.intercalate.go, strData]

/-- Splitting a newline-free character list yields a single line. -/
theorem splitNlGo_no_nl (acc : List Char) (l : List Char) (h : '\n' ∉ l) :
    splitNlGo acc l = [acc.reverse ++ l] := by
  induction l generalizing acc with
  | nil => simp [splitNlGo]
  | cons c cs ih =>
    have hc : c ≠ '\n' := fun he => h (he ▸ List.mem_cons_self c cs)
    have hcs : '\n' ∉ cs := fun hm => h (List.mem_cons_of_mem c hm)
    simp [splitNlGo, hc, ih _ hcs]

/-- Splitting a newline-free string yields that string as the only line. -/
theorem splitNlStr_no_nl (s : String) (h : '\n' ∉ s.data) : splitNlStr s = [s] := by
  simp [splitNlStr, splitNl, splitNlGo_no_nl [] s.data h]

/-- Joining a single line adds no separators. -/
theorem joinNlStr_single (s : String) : joinNlStr [s] = s := by
  apply strExt
  simp [joinNlStr, joinNl, List.intercalate]

/-- Evaluation of `convertList` on an ordered list whose collected items
are a keeper, a blank (skipped) item, and another keeper: the emitted
markers are `1. ` and `3. ` — each item's number is its position among all
collected items plus one, counting the skipped one. -/
theorem convertList_eval3 (proc : Node → String) (node n0 n1 n2 : Node)
    (c0 c2 : String)
    (hq : querySelectorAll ["li"] node = [n0, n1, n2])
    (hOrd : jsToLower node.nodeName = "ol")
    (h0 : jsTrim (getTextContent proc n0) = c0)
    (h1 : jsTrim (getTextContent proc n1) = "")
    (h2 : jsTrim (getTextContent proc n2) = c2)
    (h0e : c0 ≠ "") (h2e : c2 ≠ "")
    (hs0 : splitNlStr c0 = [c0]) (hs2 : splitNlStr c2 = [c2]) :
    convertList proc node =
      "\n\n" ++ ("" ++ ("1. " ++ c0 ++ "\n") ++ ("3. " ++ c2 ++ "\n")) ++ "\n" := by
  simp only [convertList, hq, hOrd]
  simp only [List.isEmpty, List.enum, List.enumFrom, List.foldl, h0, h1, h2]
  have t1 : (toString (1 : Nat)) = "1" := by decide
  have t3 : (toString (3 : Nat)) = "3" := by decide
  simp [h0e, h2e, hs0, hs2, joinNlStr_single, t1, t3, String.append_assoc]

/-! ## Claim theorems -/

/-- C1 (code bug): the post-processing normalizer is NOT idempotent,
contrary to the spec's required property. On `"```a```\nb"` a single
application yields `"```a```\n\n\nb"` — the fence-framing pass (pass 6)
runs after the newline-collapsing pass (pass 1) and re-inserts a blank
pair before the already-separated `b` — and a second application turns the
collapsed `\n\n` back into `\n\n\n\n`, so the results differ. -/
theorem postProcess_not_idempotent :
    postProcess "```a```\nb" = "```a```\n\n\nb" ∧
    postProcess (postProcess "```a```\nb") = "```a```\n\n\n\nb" ∧
    postProcess (postProcess "```a```\nb") ≠ postProcess "```a```\nb" := by
  decide

/-- C2 (confirmed): `addRule` prepends, so the newest rule has the highest
priority; dispatch on the extended list asks the new rule's filter first
and falls back to the previous rules, so a rule registered later overrides
any earlier rule sharing its filter; and `findMatchingRule` returns exactly
the first rule in priority order whose filter matches (`List.find?`), hence
at most one rule fires for a node. -/
theorem addRule_priority_dispatch (r : Rule) (rules : List Rule) (n : Node) :
    addRule r rules = r :: rules ∧
    findMatchingRule (addRule r rules) n =
      (if matchesFilter n r.filter then some r else findMatchingRule rules n) ∧
    findMatchingRule rules n = rules.find? (fun rl => matchesFilter n rl.filter) := by
  refine ⟨rfl, rfl, ?_⟩
  induction rules with
  | nil => rfl
  | cons hd tl ih =>
    simp only [findMatchingRule, List.find?]
    cases matchesFilter n hd.filter <;> simp [ih]

/-- C4 (counterexample): constructing the service with unsupported style
values does not fail — there is no `ConfigurationError` anywhere in the
code and the constructor has no throw path — and the unsupported values
are stored verbatim (not even replaced by defaults). -/
theorem mkOptions_no_configuration_error :
    mkOptions ⟨some "setext", some "indented", some "~", some "%%",
               some "referencedLink", some "\n", some "***"⟩ =
      ⟨"setext", "indented", "~", "%%", "referencedLink", "\n", "***"⟩ := by
  decide

/-- C4 (amended): construction always succeeds with no validation: any
non-empty (truthy) option value — supported or not — is accepted and kept
verbatim, and only missing or empty (falsy) values are replaced by the
documented defaults. -/
theorem mkOptions_accepts_any_truthy_value (s : String) (h : s ≠ "") :
    (mkOptions ⟨some s, none, none, none, none, none, none⟩).headingStyle = s ∧
    mkOptions ⟨none, none, none, none, none, none, none⟩ =
      ⟨"atx", "fenced", "_", "**", "inlineLink", "\n", "---"⟩ := by
  refine ⟨?_, by decide⟩
  simp [mkOptions, jsOrDefault, h]

/-- C4 witness: the amended statement at the concrete unsupported heading
style `"setext"`. -/
theorem mkOptions_accepts_any_truthy_value_witness :
    (mkOptions ⟨some "setext", none, none, none, none, none, none⟩).headingStyle = "setext" ∧
    mkOptions ⟨none, none, none, none, none, none, none⟩ =
      ⟨"atx", "fenced", "_", "**", "inlineLink", "\n", "---"⟩ :=
  mkOptions_accepts_any_truthy_value "setext" (by decide)

/-- C9 (confirmed): `convert` rejects a non-string or empty input with the
same error regardless of the processing pipeline, so the failure happens
before any sanitization, traversal, or normalization and no partial result
is produced. -/
theorem convert_rejects_invalid_input (pipeline : String → String) (inp : HtmlInput)
    (h : inp = .nonString ∨ inp = .str "") :
    convert pipeline inp = .error "转换失败: Invalid HTML input" := by
  rcases h with h | h <;> subst h <;> rfl

/-- C9 witness: the empty-string input with the identity pipeline. -/
theorem convert_rejects_invalid_input_witness :
    convert id (.str "") = .error "转换失败: Invalid HTML input" :=
  convert_rejects_invalid_input id (.str "") (Or.inr rfl)

/-- C5 (confirmed): an element with no matching rule yields exactly the
concatenation of its children's transformed outputs in document order
(`processChildren`), with no wrapping; a text node yields its raw text; a
non-element non-text node yields the empty string. -/
theorem processNode_transparent_passthrough (rules : List Rule) (fuel : Nat)
    (t : String) (p : Option String) (a : List (String × String)) (cs : NodeList)
    (s : String)
    (h : findMatchingRule rules (.element t p a cs) = none) :
    processNode rules (fuel + 1) (.element t p a cs) =
      String.join (cs.toList.map (processNode rules fuel)) ∧
    processNode rules (fuel + 1) (.element t p a cs) =
      processChildren rules fuel (.element t p a cs) ∧
    processNode rules (fuel + 1) (.text s) = s ∧
    processNode rules (fuel + 1) (.comment s) = "" := by
  refine ⟨?_, ?_, rfl, rfl⟩ <;>
    simp [processNode, processChildren, Node.childNodes, h]

/-- C5 witness: a `span` (no rule in the converter's table matches it) with
a text child and a bold child passes its children's output through
unchanged. -/
theorem processNode_transparent_passthrough_witness :
    processNode converterRules 5 (el "SPAN" [] [txt "x", el "B" [] [txt "y"]]) =
      processChildren converterRules 4 (el "SPAN" [] [txt "x", el "B" [] [txt "y"]]) ∧
    processNode converterRules 5 (el "SPAN" [] [txt "x", el "B" [] [txt "y"]]) =
      "x**y**" := by
  refine ⟨?_, by decide⟩
  exact (processNode_transparent_passthrough converterRules 4 "SPAN" none []
    (.cons (.text "x")
      (.cons (.element "B" (some "SPAN") [] (.cons (.text "y") .nil)) .nil))
    "" rfl).2.1

/-- Sample nested list `<ul><li>a<ul><li>b</li></ul></li></ul>`. -/
def nestedListSample : Node :=
  el "UL" [] [el "LI" [] [txt "a", el "UL" [] [el "LI" [] [txt "b"]]]]

/-- Sample doubly nested list
`<ul><li>a<ul><li>b<ul><li>c</li></ul></li></ul></li></ul>`. -/
def deepListSample : Node :=
  el "UL" []
    [el "LI" [] [txt "a",
      el "UL" [] [el "LI" [] [txt "b",
        el "UL" [] [el "LI" [] [txt "c"]]]]]]

/-- C3 (counterexample): the list transform does NOT iterate only the
direct `li` children — `querySelectorAll('li')` collects all two `li`
descendants of the nested sample while only one `li` is a direct child —
and the nested item `b` is hoisted out of its nesting level into the
parent list's item sequence (`- a` and `- b` as siblings). -/
theorem convertList_not_direct_children_only :
    querySelectorAll ["li"] nestedListSample ≠
      nestedListSample.childNodes.filter (fun c => c.nodeName == "LI") ∧
    (querySelectorAll ["li"] nestedListSample).length = 2 ∧
    (nestedListSample.childNodes.filter (fun c => c.nodeName == "LI")).length = 1 ∧
    processNode converterRules 10 nestedListSample = "\n\n- a\n- b\n\n" := by
  decide

/-- C3 (amended): the list transform iterates ALL descendant `li` elements,
flattening nested list items into the parent's item sequence as siblings;
nested lists are excluded from each item's direct text extraction, so no
content is duplicated (each of `a`, `b`, `c` appears exactly once, at the
top level). -/
theorem convertList_flattens_without_duplication :
    convertList (processNode converterRules 10) nestedListSample = "\n\n- a\n- b\n\n" ∧
    processNode converterRules 10 nestedListSample = "\n\n- a\n- b\n\n" ∧
    convertList (processNode converterRules 10) deepListSample = "\n\n- a\n- b\n- c\n\n" ∧
    getTextContent (processNode converterRules 10)
      (el "LI" [] [txt "a", el "UL" [] [el "LI" [] [txt "b"]]]) = "a" := by
  decide

/-- C8 (confirmed): ordered items are numbered sequentially from 1 for
every value of the `start` attribute — `<ol start="...">` with items `x`,
`y` always yields `1.`/`2.` — both through `convertList` directly and
through the full rule pipeline; unordered lists use the `- ` marker. -/
theorem ol_numbering_ignores_start_attribute (startVal : String) :
    convertList (processNode converterRules 6)
      (el "OL" [("start", startVal)] [el "LI" [] [txt "x"], el "LI" [] [txt "y"]]) =
      "\n\n1. x\n2. y\n\n" ∧
    processNode converterRules 7
      (el "OL" [("start", startVal)] [el "LI" [] [txt "x"], el "LI" [] [txt "y"]]) =
      "\n\n1. x\n2. y\n\n" ∧
    convertList (processNode converterRules 6)
      (el "UL" [] [el "LI" [] [txt "x"], el "LI" [] [txt "y"]]) =
      "\n\n- x\n- y\n\n" := by
  refine ⟨rfl, rfl, by decide⟩

/-- C6 (confirmed): the code-block transform emits a fenced block whose
body is the nested `code` element's raw text content, verbatim, for every
content string; the language tag comes from a `language-xxx` class token
(`js` for `language-js`, empty when absent or not of that shape); markup
inside the code element contributes only its text (the transformed child
output is bypassed); the fence is framed by blank lines; and the full rule
pipeline reproduces `1 < 2` without re-encoding. -/
theorem convertCodeBlock_raw_fenced (s : String) :
    convertCodeBlock (el "PRE" [] [el "CODE" [("class", "language-js")] [txt s]]) =
      "\n\n```js\n" ++ s ++ "\n```\n\n" ∧
    convertCodeBlock (el "PRE" [] [el "CODE" [] [txt s]]) =
      "\n\n```\n" ++ s ++ "\n```\n\n" ∧
    extractLanguage "language-js" = "js" ∧
    extractLanguage "plain" = "" ∧
    processNode converterRules 5
      (el "PRE" [] [el "CODE" [("class", "language-js")] [txt "1 < 2"]]) =
      "\n\n```js\n1 < 2\n```\n\n" ∧
    convertCodeBlock (el "PRE" [] [el "CODE" [] [el "B" [] [txt "x"]]]) =
      "\n\n```\nx\n```\n\n" := by
  refine ⟨?_, ?_, by decide, by decide, by decide, by decide⟩
  · have h : convertCodeBlock (el "PRE" [] [el "CODE" [("class", "language-js")] [txt s]]) =
        "\n\n```js\n" ++
          textContent (.element "CODE" (some "PRE") [("class", "language-js")]
            (.cons (.text s) .nil)) ++ "\n```\n\n" := rfl
    rw [h, textContent_single]
  · have h : convertCodeBlock (el "PRE" [] [el "CODE" [] [txt s]]) =
        "\n\n```\n" ++
          textContent (.element "CODE" (some "PRE") [] (.cons (.text s) .nil)) ++
          "\n```\n\n" := rfl
    rw [h, textContent_single]

/-- C7 (confirmed): a table cell's emitted content is its text content —
not its HTML — trimmed and with every pipe escaped, for every content
string; in particular `a|b` renders as `a\|b` inside its row, and markup
in a cell contributes only its text. -/
theorem convertTable_cell_escaping (s : String) :
    convertTable (el "TABLE" [] [el "TR" [] [el "TD" [] [txt s]]]) =
      "\n\n| " ++ escapePipes (jsTrim s) ++ " |\n\n" ∧
    escapePipes (jsTrim " a|b ") = "a\\|b" ∧
    convertTable (el "TABLE" []
      [el "TR" [] [el "TH" [] [txt "h"]],
       el "TR" [] [el "TD" [] [txt "a|b"], el "TD" [] [el "B" [] [txt "x"], txt "|y"]]]) =
      "\n\n| h |\n| --- |\n| a\\|b | x\\|y |\n\n" := by
  refine ⟨?_, by decide, by decide⟩
  have h : convertTable (el "TABLE" [] [el "TR" [] [el "TD" [] [txt s]]]) =
      "\n\n" ++ ("" ++ ("| " ++ String.intercalate " | "
        [escapePipes (jsTrim (textContent
          (.element "TD" (some "TR") [] (.cons (.text s) .nil))))] ++ " |\n")) ++ "\n" := rfl
  rw [h, textContent_single, intercalate_single]
  apply strExt
  simp only [strData]
  simp

/-- C10 (confirmed): a list item whose converted content is
whitespace-only is skipped (no marker line), but the ordered counter still
counts it — each emitted number is one plus the item's position among all
collected `li` elements — so the numbering has gaps: `x`, ` `, `y` yield
`1. x` and `3. y`; a leading blank item makes the first emitted item `2.`;
an item whose nested markup trims to nothing is likewise skipped but
counted; unordered lists skip blank items without visible gaps. -/
theorem convertList_blank_items_counted_in_numbering (a b : String)
    (ha : jsTrim a = a) (hae : a ≠ "") (hna : '\n' ∉ a.data)
    (hb : jsTrim b = b) (hbe : b ≠ "") (hnb : '\n' ∉ b.data) :
    processNode converterRules 7
      (el "OL" [] [el "LI" [] [txt a], el "LI" [] [txt " "], el "LI" [] [txt b]]) =
      "\n\n1. " ++ a ++ "\n3. " ++ b ++ "\n\n" ∧
    processNode converterRules 7
      (el "OL" [] [el "LI" [] [txt "  "], el "LI" [] [txt "x"]]) = "\n\n2. x\n\n" ∧
    processNode converterRules 7
      (el "OL" [] [el "LI" [] [el "EM" [] [txt "  "]], el "LI" [] [txt "x"]]) =
      "\n\n2. x\n\n" ∧
    processNode converterRules 7
      (el "UL" [] [el "LI" [] [txt "x"], el "LI" [] [txt " "], el "LI" [] [txt "y"]]) =
      "\n\n- x\n- y\n\n" := by
  refine ⟨?_, by decide, by decide, by decide⟩
  have step : processNode converterRules 7
      (el "OL" [] [el "LI" [] [txt a], el "LI" [] [txt " "], el "LI" [] [txt b]]) =
      convertList (processNode converterRules 6)
        (el "OL" [] [el "LI" [] [txt a], el "LI" [] [txt " "], el "LI" [] [txt b]]) := rfl
  have e0 : jsTrim (getTextContent (processNode converterRules 6)
      (Node.element "LI" (some "OL") [] (.cons (.text a) .nil))) =
      jsTrim (jsTrim (jsTrim a)) := rfl
  have e2 : jsTrim (getTextContent (processNode converterRules 6)
      (Node.element "LI" (some "OL") [] (.cons (.text b) .nil))) =
      jsTrim (jsTrim (jsTrim b)) := rfl
  have h0 : jsTrim (getTextContent (processNode converterRules 6)
      (Node.element "LI" (some "OL") [] (.cons (.text a) .nil))) = a := by
    rw [e0, ha, ha, ha]
  have h2 : jsTrim (getTextContent (processNode converterRules 6)
      (Node.element "LI" (some "OL") [] (.cons (.text b) .nil))) = b := by
    rw [e2, hb, hb, hb]
  have res := convertList_eval3 (processNode converterRules 6)
    (el "OL" [] [el "LI" [] [txt a], el "LI" [] [txt " "], el "LI" [] [txt b]])
    (Node.element "LI" (some "OL") [] (.cons (.text a) .nil))
    (Node.element "LI" (some "OL") [] (.cons (.text " ") .nil))
    (Node.element "LI" (some "OL") [] (.cons (.text b) .nil))
    a b rfl rfl h0 (by decide) h2 hae hbe
    (splitNlStr_no_nl a hna) (splitNlStr_no_nl b hnb)
  rw [step, res]
  apply strExt
  simp only [strData]
  simp

/-- C10 witness: the claim's own example, items `x`, ` `, `y`, numbered
`1.` and `3.`. -/
theorem convertList_blank_items_counted_in_numbering_witness :
    processNode converterRules 7
      (el "OL" [] [el "LI" [] [txt "x"], el "LI" [] [txt " "], el "LI" [] [txt "y"]]) =
      "\n\n1. x\n3. y\n\n" :=
  (convertList_blank_items_counted_in_numbering "x" "y"
    (by decide) (by decide) (by decide) (by decide) (by decide) (by decide)).1
